import Mathlib

/-!
# canal — line-protocol codec: a shallow embedding with proofs

This file embeds the schema-driven InfluxDB line-protocol codec of the
`canal` package (files `canal/datum.py`, `canal/util.py`, `canal/point.py`,
`canal/measurement.py`, `canal/series.py`) into Lean 4 and settles the
stated claims about it.

Conventions of the embedding:
* Python strings are `List Char` (wrapped into `String` at the interfaces);
  `str.replace` with the one- and two-character patterns used by
  `Tag.format` is embedded as direct structural recursion with the same
  leftmost, non-overlapping semantics.
* Fallible code returns `Except`: a raised Python exception is an
  `Except.error`, so a computation that raises returns no output at all.
* CPython `float` values that the code routes integers through are embedded
  as rationals plus an explicit round-to-double model (`floatRound`), and
  `round` / `int()` on floats as round-half-to-even / truncation on ℚ.
* Timezone-aware `datetime` values are embedded as their instant: the count
  of microseconds since 1970-01-01T00:00:00Z (CPython datetimes hold whole
  microseconds; `astimezone(pytz.UTC)` does not move the instant).
-/

namespace Canal

/-! ## Tag escaping (`canal/datum.py`, `Tag.format`)

`Tag.format` is
`str(value).replace(" ", "\ ").replace(",", "\,").replace("=", "\=")`:
three sequential passes, each replacing every occurrence of a single
character `p` by backslash-`p`. -/

/-- One pass of `str.replace(p, "\" + p)` for a single character `p`:
every occurrence of `p` becomes `'\\', p`. -/
def escapeChar (p : Char) : List Char → List Char
  | [] => []
  | c :: cs => if c = p then '\\' :: p :: escapeChar p cs else c :: escapeChar p cs

/-- One pass of `str.replace("\" + p, p)`: leftmost, non-overlapping
replacement of the two-character pattern backslash-`p` by `p`, exactly as
CPython `str.replace` scans. -/
def unescapeChar (p : Char) : List Char → List Char
  | [] => []
  | [c] => [c]
  | b :: c :: cs =>
    if b = '\\' ∧ c = p then c :: unescapeChar p cs
    else b :: unescapeChar p (c :: cs)

/-- `Tag.format` on the character list: escape space, then comma, then
equals sign, in this order (`canal/datum.py` line 16). -/
def escapeTag (cs : List Char) : List Char :=
  escapeChar '=' (escapeChar ',' (escapeChar ' ' cs))

/-- Modelled from the spec: the repository ships no production unescaper
(query responses arrive as typed JSON values), so the spec's "unescape is
the inverse substitution" is modelled here: undo the three substitutions of
`Tag.format` in the reverse order — equals sign, then comma, then space. -/
def unescapeTag (cs : List Char) : List Char :=
  unescapeChar ' ' (unescapeChar ',' (unescapeChar '=' cs))

/-- `Tag.format` at the `String` interface. -/
def tagFormat (s : String) : String := ⟨escapeTag s.data⟩

/-- The modelled unescaper at the `String` interface. -/
def tagUnescape (s : String) : String := ⟨unescapeTag s.data⟩

/-! ## CPython float model

`Point.time`'s integer branch and `Point.to_line_protocol`'s timestamp
rendering route integers through CPython `float` (64-bit IEEE doubles).
Doubles are embedded as the rationals they denote; `floatRound` rounds an
exact rational result to the nearest double (ties to even). The model
covers the normal range this file uses it on (magnitudes below `2 ^ 1023`);
for magnitudes below 1 it returns its argument unchanged, which is exact on
every input this file applies it to (integers, and products that are
integers divided by powers of ten well inside the 53-bit window). -/

/-- The floor of a rational (`q.num / q.den` in Euclidean division, which
is floor division for the positive denominator); spelled out so that it
evaluates by kernel reduction. -/
def ratFloor (q : ℚ) : Int := q.num / (q.den : Int)

/-- The absolute value of a rational, spelled out so that it evaluates by
kernel reduction. -/
def ratAbs (q : ℚ) : ℚ := if q < 0 then -q else q

/-- `Nat.log2` with explicit fuel (enough for every magnitude in this
file), so that it evaluates by kernel reduction. -/
def log2Fuel : Nat → Nat → Nat
  | 0, _ => 0
  | fuel + 1, n => if 2 ≤ n then log2Fuel fuel (n / 2) + 1 else 0

/-- Round a rational to the nearest integer, ties to even: CPython
`round(x)` on a float, and the rounding `datetime.timedelta` applies to a
fractional `microseconds` argument. -/
def roundHalfEvenInt (x : ℚ) : Int :=
  let f := ratFloor x
  let r := x - (f : ℚ)
  if r < 1 / 2 then f
  else if 1 / 2 < r then f + 1
  else if f % 2 = 0 then f else f + 1

/-- `a / b` (for `0 < b`) rounded to the nearest integer, ties to even, in
integer arithmetic: the evaluated form of `roundHalfEvenInt` on the
fraction `a / b` (the bridge is proved below). -/
def divRoundHalfEven (a b : Int) : Int :=
  let q := a / b
  let r := a - q * b
  if 2 * r < b then q
  else if b < 2 * r then q + 1
  else if q % 2 = 0 then q else q + 1

/-- IEEE-754 double rounding (round to nearest, ties to even) of an exact
rational, for magnitudes at least 1: round to the nearest multiple of the
unit in the last place `2 ^ (exponent - 52)`. -/
def floatRound (q : ℚ) : ℚ :=
  if ratAbs q < 1 then q
  else
    let e := log2Fuel 1100 (ratFloor (ratAbs q)).toNat
    let u : ℚ := (2 ^ e : ℚ) / 2 ^ 52
    u * (roundHalfEvenInt (q / u) : ℚ)

/-- CPython `int()` on a float: truncation toward zero. -/
def pyTrunc (x : ℚ) : Int := if 0 ≤ x then ratFloor x else -ratFloor (-x)

/-! ## Value formatters (`canal/datum.py`) -/

/-- A CPython float cell value: NaN or a finite double (as the rational it
denotes). -/
inductive PyFloat where
  | nan : PyFloat
  | val (q : ℚ) : PyFloat
deriving DecidableEq

/-- Digits of the fractional part `num / den` (with `num < den`), most
significant first, by decimal long division, stopping when the expansion
terminates (fuel covers every double's finite expansion). -/
def decDigits : Nat → Nat → Nat → List Char
  | 0, _, _ => []
  | fuel + 1, num, den =>
    if num = 0 then []
    else Char.ofNat (48 + num * 10 / den) :: decDigits fuel (num * 10 % den) den

/-- CPython `str(float)` — modelled for finite doubles whose shortest
round-trip representation is their exact decimal expansion (all values this
file renders, e.g. `2.5`, `1.0`); scientific-notation ranges are outside
the model. `float.__str__` always keeps at least one fractional digit. -/
def pyFloatStr (q : ℚ) : String :=
  let sign : String := if q.num < 0 then "-" else ""
  let na := q.num.natAbs
  let ds := decDigits 1200 (na % q.den) q.den
  let frs : String := if ds.isEmpty then "0" else ⟨ds⟩
  sign ++ toString (na / q.den) ++ "." ++ frs

/-- `FloatField.format`: `str(float(value))` (NaN prints `nan`). -/
def formatFloat : PyFloat → String
  | .nan => "nan"
  | .val q => pyFloatStr q

/-- `IntegerField.format`: `"{}i".format(int(value))`. -/
def formatInt (i : Int) : String := toString i ++ "i"

/-- `BooleanField.format`: `str(bool(value))`. -/
def formatBool (b : Bool) : String := if b then "True" else "False"

/-- `StringField.format`: wrap in double quotes, escaping every embedded
double quote as backslash-quote. -/
def formatStrField (s : String) : String :=
  "\"" ++ (⟨escapeChar '"' s.data⟩ : String) ++ "\""

/-- A field cell value of one of the four datum kinds. -/
inductive FieldValue where
  | floatV (x : PyFloat)
  | intV (i : Int)
  | boolV (b : Bool)
  | strV (s : String)
deriving DecidableEq

/-- Format a field value with its datum class's formatter. -/
def formatFieldValue : FieldValue → String
  | .floatV x => formatFloat x
  | .intV i => formatInt i
  | .boolV b => formatBool b
  | .strV s => formatStrField s

/-! ## Schema descriptors (`canal/datum.py` `Datum.__init__`) -/

/-- The data carried by a `Tag` descriptor: `required` and the (unused by
the encoders) `db_name` override. -/
structure TagSpec where
  required : Bool := false
  dbName : Option String := none
deriving DecidableEq

/-- The errors `to_line_protocol` raises (`canal/exceptions.py` is not in
the repository tree; the two classes are imported by every encoder). -/
inductive EncodeError where
  | missingTag (name : String)
  | missingField (name : String)
deriving DecidableEq

deriving instance DecidableEq for Except

/-! ## Single-record encoder (`canal/point.py`, `Point.to_line_protocol`) -/

/-- One tag slot of a `Point`: attribute name, descriptor, held value
(`None` = absent). -/
structure PointTag where
  name : String
  spec : TagSpec
  value : Option String
deriving DecidableEq

/-- One field slot of a `Point`. -/
structure PointField where
  name : String
  required : Bool := false
  dbName : Option String := none
  value : Option FieldValue
deriving DecidableEq

/-- Python `str.rstrip(",")`: drop every trailing comma. -/
def rstripComma (s : String) : String :=
  ⟨(s.data.reverse.dropWhile (· = ',')).reverse⟩

/-- The tag loop of `Point.to_line_protocol`: append
`"<attname>=<Tag.format(value)>,"` for each present tag, raise
`MissingTagError` at the first absent required tag. -/
def pointTagFold (acc : String) : List PointTag → Except EncodeError String
  | [] => .ok acc
  | t :: ts =>
    match t.value with
    | some v => pointTagFold (acc ++ t.name ++ "=" ++ tagFormat v ++ ",") ts
    | none =>
      if t.spec.required then .error (.missingTag t.name) else pointTagFold acc ts

/-- Measurement name, comma, the tag pairs, with trailing commas stripped:
the state of `line_protocol` after `rstrip(",")` in `Point.to_line_protocol`
(before the space that precedes the fields is appended). -/
def pointTagSegment (mname : String) (tags : List PointTag) :
    Except EncodeError String :=
  (pointTagFold (mname ++ ",") tags).map rstripComma

/-- The field loop of `Point.to_line_protocol`. -/
def pointFieldFold (acc : String) : List PointField → Except EncodeError String
  | [] => .ok acc
  | f :: fs =>
    match f.value with
    | some v => pointFieldFold (acc ++ f.name ++ "=" ++ formatFieldValue v ++ ",") fs
    | none =>
      if f.required then .error (.missingField f.name) else pointFieldFold acc fs

/-- `int((self.time - self.EPOCH).total_seconds() * 10 ** 9)`: the stored
instant (microseconds since epoch) through float `total_seconds`, float
multiplication by `10 ** 9`, and `int()` truncation. -/
def pointTimeNs (us : Int) : Int :=
  pyTrunc (floatRound (floatRound ((us : ℚ) / 1000000) * 1000000000))

/-- `Point.to_line_protocol`: measurement name and tags, `rstrip(",")`, one
space, fields, `rstrip(",")`, then, when a timestamp is stored, one space
and the nanosecond integer. -/
def pointToLineProtocol (mname : String) (tags : List PointTag)
    (fields : List PointField) (time : Option Int) : Except EncodeError String := do
  let tseg ← pointTagSegment mname tags
  let fseg ← pointFieldFold (tseg ++ " ") fields
  let core := rstripComma fseg
  return core ++
    (match time with
     | some us => " " ++ toString (pointTimeNs us)
     | none => "")

/-! ## Batch encoder (`canal/measurement.py` `Measurement.to_line_protocol`
and the line-for-line identical `canal/series.py` `Series.to_line_protocol`;
the only difference is the name written at the head of each line, which is
a parameter here) -/

/-- A tag column of the wrapped dataframe (`None` cells are pandas nulls). -/
structure TagColumn where
  name : String
  spec : TagSpec
  cells : List (Option String)
deriving DecidableEq

/-- A field column's cells, typed by the column's datum class. In a float
column NaN is a present value (`item is not None` holds for it) although
`isnull()` counts it as null. -/
inductive FieldCells where
  | floatCells (cs : List (Option PyFloat))
  | intCells (cs : List (Option Int))
  | boolCells (cs : List (Option Bool))
  | strCells (cs : List (Option String))
deriving DecidableEq

/-- A field column of the wrapped dataframe. -/
structure FieldColumn where
  name : String
  required : Bool := false
  dbName : Option String := none
  cells : FieldCells
deriving DecidableEq

/-- `self.data_frame[attname].isnull().values.any()` for a tag column. -/
def tagColHasNull (t : TagColumn) : Bool := t.cells.any (·.isNone)

/-- `isnull().values.any()` for a field column: `None` cells and float NaN
cells are null. -/
def fieldColHasNull (f : FieldColumn) : Bool :=
  match f.cells with
  | .floatCells cs =>
    cs.any fun c =>
      match c with
      | none => true
      | some .nan => true
      | some (.val _) => false
  | .intCells cs => cs.any (·.isNone)
  | .boolCells cs => cs.any (·.isNone)
  | .strCells cs => cs.any (·.isNone)

/-- Row `i`'s cell of a field column, formatted by the column's datum class
when it is present (`None` = absent; NaN is present and formats as `nan`). -/
def fieldCellFormat (f : FieldColumn) (i : Nat) : Option String :=
  match f.cells with
  | .floatCells cs => (cs.getD i none).map formatFloat
  | .intCells cs => (cs.getD i none).map formatInt
  | .boolCells cs => (cs.getD i none).map formatBool
  | .strCells cs => (cs.getD i none).map formatStrField

/-- The required-tag pre-scan: the first required tag column containing a
null raises `MissingTagError`, before any output is generated. -/
def batchCheckTags : List TagColumn → Except EncodeError Unit
  | [] => .ok ()
  | t :: ts =>
    if t.spec.required && tagColHasNull t then .error (.missingTag t.name)
    else batchCheckTags ts

/-- The required-field pre-scan. -/
def batchCheckFields : List FieldColumn → Except EncodeError Unit
  | [] => .ok ()
  | f :: fs =>
    if f.required && fieldColHasNull f then .error (.missingField f.name)
    else batchCheckFields fs

/-- One row's line: `" ".join` of the comma-joined measurement-plus-tags
list, the comma-joined fields list, and `str(row.time.value)` when the
timestamp column exists (its `datetime64[ns]` values are exact nanosecond
integers) or `""` when it does not. The join always has three elements, so
a row without a timestamp ends in a space. -/
def batchRowLine (mname : String) (tags : List TagColumn)
    (fields : List FieldColumn) (time : Option (List Int)) (i : Nat) : String :=
  let tagPart := String.intercalate ","
    (mname :: tags.filterMap fun t =>
      (t.cells.getD i none).map fun v => t.name ++ "=" ++ tagFormat v)
  let fieldPart := String.intercalate ","
    (fields.filterMap fun f =>
      (fieldCellFormat f i).map fun s => f.name ++ "=" ++ s)
  let timePart : String :=
    match time with
    | some ts => toString (ts.getD i 0)
    | none => ""
  tagPart ++ " " ++ fieldPart ++ " " ++ timePart

/-- `Measurement.to_line_protocol` (and `Series.to_line_protocol` with the
registered measurement's name): batch-wide required checks, then one line
per row joined by newlines. `n` is the dataframe's row count. -/
def measurementToLineProtocol (mname : String) (tags : List TagColumn)
    (fields : List FieldColumn) (time : Option (List Int)) (n : Nat) :
    Except EncodeError String := do
  batchCheckTags tags
  batchCheckFields fields
  return String.intercalate "\n"
    ((List.range n).map (batchRowLine mname tags fields time))

/-! ## Calendar arithmetic (CPython `datetime` collaborator)

`datetime_from_influx_time` hands its parsed groups to the
`datetime.datetime` constructor, which validates the fields and represents
an aware UTC instant; instants are embedded as microseconds since
1970-01-01T00:00:00Z using proleptic-Gregorian ordinals exactly as
`datetime.date.toordinal` computes them. -/

/-- Gregorian leap year. -/
def isLeap (y : Nat) : Bool := (y % 4 == 0 && y % 100 != 0) || y % 400 == 0

/-- Days in a month (0 for an out-of-range month number). -/
def daysInMonth (y : Nat) (m : Nat) : Nat :=
  match m with
  | 1 => 31 | 2 => if isLeap y then 29 else 28 | 3 => 31 | 4 => 30
  | 5 => 31 | 6 => 30 | 7 => 31 | 8 => 31
  | 9 => 30 | 10 => 31 | 11 => 30 | 12 => 31
  | _ => 0

/-- Days in the full years before year `y` (proleptic Gregorian, year 1
first). -/
def daysBeforeYear (y : Nat) : Int :=
  365 * ((y : Int) - 1) + ((y : Int) - 1) / 4 - ((y : Int) - 1) / 100
    + ((y : Int) - 1) / 400

/-- Days in the months of year `y` before month `m`. -/
def daysBeforeMonth (y : Nat) (m : Nat) : Int :=
  let base : Int :=
    match m with
    | 1 => 0 | 2 => 31 | 3 => 59 | 4 => 90 | 5 => 120 | 6 => 151
    | 7 => 181 | 8 => 212 | 9 => 243 | 10 => 273 | 11 => 304 | 12 => 334
    | _ => 0
  base + if 2 < m ∧ isLeap y then 1 else 0

/-- `datetime.date.toordinal`: day number of `y-m-d`, with 0001-01-01 as
day 1 (1970-01-01 is day 719163). -/
def toOrdinal (y m d : Nat) : Int := daysBeforeYear y + daysBeforeMonth y m + (d : Int)

/-- The `datetime.datetime` constructor's range validation. -/
def validCivil (y mo d h mi s us : Nat) : Bool :=
  1 ≤ y && y ≤ 9999 && 1 ≤ mo && mo ≤ 12 && 1 ≤ d && d ≤ daysInMonth y mo
    && h ≤ 23 && mi ≤ 59 && s ≤ 59 && us ≤ 999999

/-- The instant `y-mo-d h:mi:s.us` UTC as microseconds since the Unix
epoch. -/
def civilToMicros (y mo d h mi s us : Nat) : Int :=
  (toOrdinal y mo d - 719163) * 86400000000
    + ((h : Int) * 3600 + (mi : Int) * 60 + (s : Int)) * 1000000 + (us : Int)

/-! ## `datetime_from_influx_time` (`canal/util.py`)

The pattern is
`(\d{4})-(\d{2})-(\d{2})T(\d{2}):(\d{2}):(\d{2}).(\d{9})Z` used with
`re.match`. Three consequences embedded faithfully: `re.match` anchors at
the start only, so trailing characters after the `Z` are accepted; the `.`
before the nanosecond group is an unescaped regex dot, which without
`re.DOTALL` matches any character EXCEPT a newline; and in a Python 3
`str` pattern `\d` matches every Unicode decimal digit (category `Nd`),
not only the ASCII digits — and `int()` converts such a group by the
digits' decimal values. The exact `Nd` character set ships with the
interpreter's Unicode database, so the matcher is parameterized by a digit
table and the acceptance theorems quantify over every table satisfying the
invariants each Unicode version guarantees. -/

/-- The runtime's `\d` semantics: which characters are Unicode decimal
digits (category `Nd`) and their decimal values, as used by the regex
engine and by `int()`. The invariants hold in every Unicode version: the
ASCII digits `0`–`9` are decimal digits with their usual values, no other
ASCII character is one, and every decimal digit's value is below ten. -/
structure PyDigits where
  isDigit : Char → Bool
  val : Char → Nat
  ascii_isDigit : ∀ c : Char, 48 ≤ c.toNat → c.toNat ≤ 57 → isDigit c = true
  ascii_val : ∀ c : Char, 48 ≤ c.toNat → c.toNat ≤ 57 → val c = c.toNat - 48
  ascii_only_digits : ∀ c : Char, c.toNat ≤ 127 →
    ¬(48 ≤ c.toNat ∧ c.toNat ≤ 57) → isDigit c = false
  val_lt_ten : ∀ c : Char, isDigit c = true → val c < 10

/-- The ASCII fragment shared by every conforming digit table: exactly the
characters `0`–`9`. Concrete evaluations in this file (all on ASCII
spellings) instantiate the matcher here; the theorems about which strings
the parser accepts quantify over every conforming table. -/
def asciiDigits : PyDigits where
  isDigit c := decide (48 ≤ c.toNat ∧ c.toNat ≤ 57)
  val c := c.toNat - 48
  ascii_isDigit := by intro c h1 h2; simp [h1, h2]
  ascii_val := by intro c _ _; rfl
  ascii_only_digits := by intro c _ h; simpa using h
  val_lt_ten := by intro c h; simp at h; show c.toNat - 48 < 10; omega

/-- Consume exactly `n` decimal digits per the table `T`, returning the
group's `int()` value and the rest of the input. -/
def takeDigitsAux (T : PyDigits) : Nat → List Char → Nat → Option (Nat × List Char)
  | 0, cs, acc => some (acc, cs)
  | _ + 1, [], _ => none
  | k + 1, c :: cs, acc =>
    if T.isDigit c then takeDigitsAux T k cs (acc * 10 + T.val c) else none

/-- Consume exactly `n` decimal digits. -/
def takeDigits (T : PyDigits) (n : Nat) (cs : List Char) :
    Option (Nat × List Char) :=
  takeDigitsAux T n cs 0

/-- Consume one expected literal character. -/
def expectChar (c : Char) : List Char → Option (List Char)
  | [] => none
  | a :: as => if a = c then some as else none

/-- Consume one arbitrary character other than a newline (the pattern's
unescaped `.`, with `re.DOTALL` not set). -/
def anyChar : List Char → Option (List Char)
  | [] => none
  | a :: as => if a = '\n' then none else some as

/-- `_influx_time_format.match(string)` at the digit table `T`: the seven
numeric groups, or `none` when the pattern does not match a prefix of the
input. -/
def matchInfluxT (T : PyDigits) (cs : List Char) :
    Option (Nat × Nat × Nat × Nat × Nat × Nat × Nat) := do
  let (y, r) ← takeDigits T 4 cs
  let r ← expectChar '-' r
  let (mo, r) ← takeDigits T 2 r
  let r ← expectChar '-' r
  let (d, r) ← takeDigits T 2 r
  let r ← expectChar 'T' r
  let (h, r) ← takeDigits T 2 r
  let r ← expectChar ':' r
  let (mi, r) ← takeDigits T 2 r
  let r ← expectChar ':' r
  let (s, r) ← takeDigits T 2 r
  let r ← anyChar r
  let (ns, r) ← takeDigits T 9 r
  let _ ← expectChar 'Z' r
  some (y, mo, d, h, mi, s, ns)

/-- The matcher at the ASCII fragment of the digit table: the instance
this file evaluates on concrete (ASCII-spelled) inputs. -/
def matchInflux (cs : List Char) :
    Option (Nat × Nat × Nat × Nat × Nat × Nat × Nat) :=
  matchInfluxT asciiDigits cs

/-- `datetime_from_influx_time` at the digit table `T`: match the pattern,
truncate the nanosecond group to microseconds
(`microsecond=int(int(ns)/1000)`, an exact floor at this magnitude since
each of the nine digits has value below ten), and build the UTC datetime;
a failed match and an invalid field both surface as `ValueError` (the
error case). -/
def datetimeFromInfluxTimeT (T : PyDigits) (s : String) : Except Unit Int :=
  match matchInfluxT T s.data with
  | none => .error ()
  | some (y, mo, d, h, mi, sec, ns) =>
    let us := ns / 1000
    if validCivil y mo d h mi sec us then .ok (civilToMicros y mo d h mi sec us)
    else .error ()

/-- `datetime_from_influx_time` at the ASCII fragment of the digit table:
the instance this file evaluates on concrete (ASCII-spelled) inputs. -/
def datetimeFromInfluxTime (s : String) : Except Unit Int :=
  datetimeFromInfluxTimeT asciiDigits s

/-! ## The `Point.time` setter (`canal/point.py` lines 119-135) -/

/-- The input shapes the setter distinguishes (the remaining Python shapes
raise `TypeError` and set nothing). -/
inductive TimeInput where
  | dt (us : Int) : TimeInput
  | ns (n : Int) : TimeInput
  | iso (s : String) : TimeInput
  | noTime : TimeInput

/-- The `Point.time` setter, returning the stored instant in microseconds
since epoch (or `none`): an aware datetime is converted to UTC (same
instant); an integer nanosecond count becomes
`EPOCH + timedelta(microseconds=time/1000)`, i.e. float division by 1000
then `timedelta`'s round-half-even to whole microseconds; a string goes
through `datetime_from_influx_time`. -/
def pointTimeSet : TimeInput → Except Unit (Option Int)
  | .dt us => .ok (some us)
  | .ns n => .ok (some (roundHalfEvenInt (floatRound ((n : ℚ) / 1000))))
  | .iso s => (datetimeFromInfluxTime s).map some
  | .noTime => .ok none

/-! ## Textual shapes for the timestamp claims.

`exactInfluxShape` is the shape the specification describes
(`YYYY-MM-DDTHH:MM:SS.fffffffffZ`, nothing before or after);
`relaxedInfluxShape` is the shape the code actually accepts, relative to a
digit table (digits in the sense of the pattern's `\d`, any single
non-newline character where the dot should be, anything after the `Z`). -/

/-- The spec's textual shape: exactly
`YYYY-MM-DDTHH:MM:SS.fffffffffZ` with 9 fractional digits and nothing else
before or after. -/
def exactInfluxShape (cs : List Char) : Prop :=
  ∃ y mo d h mi s f : List Char,
    cs = y ++ '-' :: mo ++ '-' :: d ++ 'T' :: h ++ ':' :: mi ++ ':' :: s
        ++ '.' :: f ++ ['Z'] ∧
    y.length = 4 ∧ mo.length = 2 ∧ d.length = 2 ∧ h.length = 2 ∧
    mi.length = 2 ∧ s.length = 2 ∧ f.length = 9 ∧
    (y ++ mo ++ d ++ h ++ mi ++ s ++ f).all Char.isDigit

/-- The shape the code accepts at the digit table `T`: the same prefix
with any single non-newline character in the dot position, digits per the
pattern's `\d`, and arbitrary trailing characters after the `Z`. -/
def relaxedInfluxShape (T : PyDigits) (cs : List Char) : Prop :=
  ∃ (y mo d h mi s f : List Char) (c : Char) (rest : List Char),
    cs = y ++ '-' :: mo ++ '-' :: d ++ 'T' :: h ++ ':' :: mi ++ ':' :: s
        ++ c :: f ++ 'Z' :: rest ∧
    y.length = 4 ∧ mo.length = 2 ∧ d.length = 2 ∧ h.length = 2 ∧
    mi.length = 2 ∧ s.length = 2 ∧ f.length = 9 ∧ c ≠ '\n' ∧
    (y ++ mo ++ d ++ h ++ mi ++ s ++ f).all T.isDigit

/-! ## Schema registration (`PointMeta._register_tags` / `_register_fields`
in `canal/point.py`, and the identical `MeasurementMeta` methods in
`canal/measurement.py`)

When a schema class is created, the mapping inherited from its base class
(`base_tags`) is merged with the class's own declarations (`tags`):
`OrderedDict([(key, base_tags.get(key, tags.get(key))) for key in
sorted(chain(base_tags.keys(), tags.keys()))])`. `dict.get(key, default)`
returns the base's value whenever the key is present in the base. -/

/-- Lexicographic code-point comparison of character lists (Python's
string ordering), spelled out so that it evaluates by kernel reduction. -/
def charListLe : List Char → List Char → Bool
  | [], _ => true
  | _ :: _, [] => false
  | a :: as, b :: bs =>
    if a.toNat < b.toNat then true
    else if b.toNat < a.toNat then false
    else charListLe as bs

/-- Stable ascending insertion of a string into a sorted list (the model of
Python `sorted` used here). -/
def insertSorted (x : String) : List String → List String
  | [] => [x]
  | y :: ys => if charListLe x.data y.data then x :: y :: ys else y :: insertSorted x ys

/-- Python `sorted` on strings. -/
def sortStrings (l : List String) : List String := l.foldr insertSorted []

/-- `_register_tags` / `_register_fields`: the merged, re-sorted mapping.
A key present in both mappings gets `base_tags.get(key, ...)` — the base
class's descriptor. (Duplicate keys in the sorted chain assign the same
value twice into the `OrderedDict`; dropping the duplicates is
equivalent.) -/
def registerDatums {α : Type} (base new : List (String × α)) :
    List (String × Option α) :=
  ((sortStrings (base.map Prod.fst ++ new.map Prod.fst)).dedup).map
    fun k => (k, (base.lookup k).orElse fun _ => new.lookup k)

/-! ## Response decoding (`Measurement.from_json`, `Point.from_json`,
`Series.from_json`)

The decoders receive an already-parsed JSON object. Only the envelope
structure they inspect is modelled: a top-level `results` list whose
entries may or may not carry a `series` list, a top-level `series` list, a
single series object (it has a `name`), or none of these. A series object
is a name, a column list and a row list. -/

/-- One `{"name", "columns", "values"}` result-set object with row
payloads of type `α`. -/
structure SeriesObj (α : Type) where
  name : String
  columns : List String
  values : List (List α)
deriving DecidableEq

/-- The envelope shapes `from_json` distinguishes. -/
inductive ResponseContent (α : Type) where
  | results (rs : List (Option (List (SeriesObj α))))
  | seriesKey (ss : List (SeriesObj α))
  | nameKey (s : SeriesObj α)
  | other
deriving DecidableEq

/-- The `series` list `Measurement.from_json` builds from the three
accepted envelope shapes (unfamiliar shapes collect nothing). -/
def gatherSeries {α : Type} : ResponseContent α → List (SeriesObj α)
  | .results rs => rs.foldl (fun acc r => acc ++ r.getD []) []
  | .seriesKey ss => ss
  | .nameKey s => [s]
  | .other => []

/-- `Measurement.from_json`: the first gathered series whose name equals
the class name is decoded into a table; when none matches (in particular
when nothing was gathered), `ValueError("Invalid JSON")` is raised. -/
def measurementFromJson {α : Type} (mname : String) (c : ResponseContent α) :
    Except Unit (SeriesObj α) :=
  match (gatherSeries c).find? (fun s => s.name == mname) with
  | some s => .ok s
  | none => .error ()

/-- `Point.from_json`: a generator over `content["results"]` — any other
envelope raises (`KeyError`), and a consumed generator with no matching
series yields the empty list of rows without raising. -/
def pointFromJson {α : Type} (mname : String) (c : ResponseContent α) :
    Except Unit (List (List α)) :=
  match c with
  | .results rs =>
    .ok ((((rs.foldl (fun acc r => acc ++ r.getD []) []).filter
        fun s => s.name == mname)).foldl (fun acc s => acc ++ s.values) [])
  | _ => .error ()

/-- `Series.from_json`: a generator over `content.get("series", [])` — it
never raises, and yields one table per matching series (modelled by the
matching series objects). -/
def seriesFromJson {α : Type} (mname : String) (c : ResponseContent α) :
    List (SeriesObj α) :=
  match c with
  | .seriesKey ss => ss.filter fun s => s.name == mname
  | _ => []

/-! # Theorems -/

/-! ## Escaping lemmas and claim C6 -/

theorem escapeChar_append (p : Char) (xs ys : List Char) :
    escapeChar p (xs ++ ys) = escapeChar p xs ++ escapeChar p ys := by
  induction xs with
  | nil => rfl
  | cons c cs ih =>
    by_cases h : c = p <;> simp [escapeChar, h, ih]

theorem escapeChar_eq_nil (p : Char) (w : List Char) (h : escapeChar p w = []) :
    w = [] := by
  cases w with
  | nil => rfl
  | cons a as => by_cases ha : a = p <;> simp [escapeChar, ha] at h

theorem head_escapeChar_ne (p : Char) (hp : p ≠ '\\') (w : List Char) :
    ∀ c cs, escapeChar p w = c :: cs → c ≠ p := by
  intro c cs h
  cases w with
  | nil => simp [escapeChar] at h
  | cons a as =>
    by_cases ha : a = p
    · simp [escapeChar, ha] at h
      intro hc; exact hp (hc ▸ h.1.symm ▸ rfl)
    · simp [escapeChar, ha] at h
      intro hc; exact ha (h.1 ▸ hc)

theorem unescapeChar_escapeChar (p : Char) (hp : p ≠ '\\') (w : List Char) :
    unescapeChar p (escapeChar p w) = w := by
  induction w with
  | nil => rfl
  | cons c cs ih =>
    by_cases hc : c = p
    · subst hc
      simp [escapeChar, unescapeChar, ih]
    · simp only [escapeChar, if_neg hc]
      cases hes : escapeChar p cs with
      | nil =>
        have : cs = [] := escapeChar_eq_nil p cs hes
        subst this
        simp [unescapeChar]
      | cons e es =>
        have hep : e ≠ p := head_escapeChar_ne p hp cs e es hes
        simp only [unescapeChar, if_neg (fun h : c = '\\' ∧ e = p => hep h.2)]
        rw [← hes, ih]

/-- **C6.** For every tag value (in particular every mix of space, comma and
equals-sign characters), unescaping the tag-escaped rendering returns the
original value: `unescape (escape v) = v`, where `escape` is `Tag.format`'s
space-then-comma-then-equals backslash escaping and `unescape` the inverse
substitution. -/
theorem tag_escape_roundtrip (v : String) : tagUnescape (tagFormat v) = v := by
  have h1 : unescapeChar '=' (escapeChar '=' (escapeChar ',' (escapeChar ' ' v.data)))
      = escapeChar ',' (escapeChar ' ' v.data) :=
    unescapeChar_escapeChar '=' (by decide) _
  have h2 : unescapeChar ',' (escapeChar ',' (escapeChar ' ' v.data))
      = escapeChar ' ' v.data :=
    unescapeChar_escapeChar ',' (by decide) _
  have h3 : unescapeChar ' ' (escapeChar ' ' v.data) = v.data :=
    unescapeChar_escapeChar ' ' (by decide) _
  show (⟨unescapeTag (escapeTag v.data)⟩ : String) = v
  rw [unescapeTag, escapeTag, h1, h2, h3]

/-! ## Bridges between the executable rational primitives and Mathlib -/

theorem ratFloor_eq_floor (q : ℚ) : ratFloor q = ⌊q⌋ := by
  rw [ratFloor, Rat.floor_def]

theorem ratAbs_eq_abs (q : ℚ) : ratAbs q = |q| := by
  rw [ratAbs]
  split
  · exact (abs_of_neg (by assumption)).symm
  · exact (abs_of_nonneg (not_lt.1 (by assumption))).symm

theorem roundHalfEvenInt_intCast (k : ℤ) : roundHalfEvenInt (k : ℚ) = k := by
  unfold roundHalfEvenInt
  rw [ratFloor_eq_floor, Int.floor_intCast]
  norm_num

theorem roundHalfEvenInt_div (a b : ℤ) (hb : 0 < b) :
    roundHalfEvenInt ((a : ℚ) / (b : ℚ)) = divRoundHalfEven a b := by
  have hbQ : (0 : ℚ) < (b : ℚ) := by exact_mod_cast hb
  have hbne : (b : ℚ) ≠ 0 := ne_of_gt hbQ
  have hbn : ((b.toNat : ℕ) : ℤ) = b := Int.toNat_of_nonneg hb.le
  have hfloor : ratFloor ((a : ℚ) / (b : ℚ)) = a / b := by
    rw [ratFloor_eq_floor, ← hbn]
    push_cast
    exact Rat.floor_intCast_div_natCast a b.toNat
  have hr : (a : ℚ) / (b : ℚ) - ((a / b : ℤ) : ℚ) = ((a - a / b * b : ℤ) : ℚ) / (b : ℚ) := by
    push_cast
    field_simp
    ring
  have hlt : (((a - a / b * b : ℤ) : ℚ) / (b : ℚ) < 1 / 2) ↔ (2 * (a - a / b * b) < b) := by
    rw [div_lt_div_iff₀ hbQ (by norm_num : (0 : ℚ) < 2), one_mul]
    constructor
    · intro h
      have h2 : ((2 * (a - a / b * b) : ℤ) : ℚ) < ((b : ℤ) : ℚ) := by push_cast; push_cast at h; linarith
      exact_mod_cast h2
    · intro h
      have h2 : ((2 * (a - a / b * b) : ℤ) : ℚ) < ((b : ℤ) : ℚ) := by exact_mod_cast h
      push_cast at h h2 ⊢
      linarith
  have hgt : (1 / 2 < ((a - a / b * b : ℤ) : ℚ) / (b : ℚ)) ↔ (b < 2 * (a - a / b * b)) := by
    rw [div_lt_div_iff₀ (by norm_num : (0 : ℚ) < 2) hbQ, one_mul]
    constructor
    · intro h
      have h2 : ((b : ℤ) : ℚ) < ((2 * (a - a / b * b) : ℤ) : ℚ) := by push_cast; push_cast at h; linarith
      exact_mod_cast h2
    · intro h
      have h2 : ((b : ℤ) : ℚ) < ((2 * (a - a / b * b) : ℤ) : ℚ) := by exact_mod_cast h
      push_cast at h h2 ⊢
      linarith
  unfold roundHalfEvenInt divRoundHalfEven
  dsimp only
  rw [hfloor, hr]
  simp only [hlt, hgt]

theorem log2Fuel_le : ∀ (f k n : Nat), n < 2 ^ (k + 1) → log2Fuel f n ≤ k
  | 0, _, _, _ => Nat.zero_le _
  | f + 1, k, n, h => by
    unfold log2Fuel
    split
    · rename_i h2
      cases k with
      | zero =>
        exfalso
        have : n < 2 := by simpa using h
        omega
      | succ k =>
        have hn2 : n / 2 < 2 ^ (k + 1) := by
          rw [Nat.div_lt_iff_lt_mul (by norm_num)]
          calc n < 2 ^ (k + 1 + 1) := h
          _ = 2 ^ (k + 1) * 2 := by ring
        have := log2Fuel_le f k (n / 2) hn2
        omega
    · exact Nat.zero_le _

theorem log2Fuel_lower : ∀ (f n : Nat), 1 ≤ n → n < 2 ^ f → 2 ^ log2Fuel f n ≤ n
  | 0, n, h1, h2 => by simp at h2; omega
  | f + 1, n, h1, h2 => by
    unfold log2Fuel
    split
    · rename_i hge2
      have h1a : 1 ≤ n / 2 := by omega
      have h2a : n / 2 < 2 ^ f := by
        rw [Nat.div_lt_iff_lt_mul (by norm_num)]
        calc n < 2 ^ (f + 1) := h2
        _ = 2 ^ f * 2 := by ring
      have ih := log2Fuel_lower f (n / 2) h1a h2a
      calc 2 ^ (log2Fuel f (n / 2) + 1) = 2 ^ log2Fuel f (n / 2) * 2 := by ring
      _ ≤ n / 2 * 2 := by omega
      _ ≤ n := by omega
    · simpa using h1

/-- A 53-bit integer is an exact double: `floatRound` returns it
unchanged. -/
theorem floatRound_intCast (k : ℤ) (hk : k.natAbs ≤ 2 ^ 53) :
    floatRound (k : ℚ) = (k : ℚ) := by
  by_cases h0 : k = 0
  · subst h0
    norm_num [floatRound, ratAbs]
  · unfold floatRound
    have habs : ratAbs (k : ℚ) = ((k.natAbs : ℕ) : ℚ) := by
      rw [ratAbs_eq_abs, Int.cast_natAbs, Int.cast_abs]
    rw [habs]
    have hpos : 1 ≤ k.natAbs := Int.natAbs_pos.2 h0
    have h1le : (1 : ℚ) ≤ (k.natAbs : ℚ) := by exact_mod_cast hpos
    rw [if_neg (not_lt.2 h1le)]
    have hfl : ratFloor ((k.natAbs : ℕ) : ℚ) = (k.natAbs : ℤ) := by
      rw [ratFloor_eq_floor]
      exact_mod_cast Int.floor_natCast (α := ℚ) k.natAbs
    rw [hfl, Int.toNat_natCast]
    dsimp only
    have he_le : log2Fuel 1100 k.natAbs ≤ 53 :=
      log2Fuel_le 1100 53 k.natAbs (lt_of_le_of_lt hk (by norm_num))
    by_cases hc : log2Fuel 1100 k.natAbs ≤ 52
    · set e := log2Fuel 1100 k.natAbs with he
      have hpow : (2 : ℚ) ^ (52 - e) * 2 ^ e = 2 ^ 52 := by
        rw [← pow_add]
        congr 1
        omega
      have hu : ((2 : ℚ) ^ e) ≠ 0 := by positivity
      have key : (k : ℚ) / ((2 : ℚ) ^ e / 2 ^ 52) = ((k * 2 ^ (52 - e) : ℤ) : ℚ) := by
        push_cast
        rw [div_div_eq_mul_div, div_eq_iff hu]
        linear_combination (-(k : ℚ)) * hpow
      rw [key, roundHalfEvenInt_intCast]
      push_cast
      rw [div_mul_eq_mul_div, div_eq_iff (by positivity : ((2 : ℚ) ^ 52) ≠ 0)]
      linear_combination (k : ℚ) * hpow
    · have he53 : log2Fuel 1100 k.natAbs = 53 := by omega
      have hlow : 2 ^ 53 ≤ k.natAbs := by
        have := log2Fuel_lower 1100 k.natAbs hpos (lt_of_le_of_lt hk (by norm_num))
        rwa [he53] at this
      have habs2 : k.natAbs = 2 ^ 53 := le_antisymm hk hlow
      obtain ⟨m, hm⟩ : (2 : ℤ) ∣ k := by
        rcases Int.natAbs_eq k with hke | hke <;>
          · rw [hke, habs2]
            push_cast
            norm_num
      subst hm
      rw [he53]
      have h253 : (2 : ℚ) ^ 53 / 2 ^ 52 = 2 := by
        rw [pow_succ]
        field_simp
      have key : ((2 * m : ℤ) : ℚ) / ((2 : ℚ) ^ 53 / 2 ^ 52) = ((m : ℤ) : ℚ) := by
        rw [h253]
        push_cast
        ring
      rw [key, roundHalfEvenInt_intCast, h253]
      push_cast
      ring

/-- The `Point.time` integer branch is exact on microsecond-exact
nanosecond counts whose microsecond value fits in 53 bits. -/
theorem pointTimeSet_ns_exact (us : ℤ) (h : us.natAbs ≤ 2 ^ 53) :
    pointTimeSet (.ns (1000 * us)) = .ok (some us) := by
  have hq : ((1000 * us : ℤ) : ℚ) / 1000 = ((us : ℤ) : ℚ) := by
    push_cast
    field_simp
  simp only [pointTimeSet, hq, floatRound_intCast us h, roundHalfEvenInt_intCast]

theorem ratFloor_div_int (a b : ℤ) (hb : 0 < b) :
    ratFloor ((a : ℚ) / (b : ℚ)) = a / b := by
  have hbn : ((b.toNat : ℕ) : ℤ) = b := Int.toNat_of_nonneg hb.le
  rw [ratFloor_eq_floor, ← hbn]
  push_cast
  exact Rat.floor_intCast_div_natCast a b.toNat

/-- Evaluation form of `floatRound` on a fraction `a / b` with
`0 < b ≤ a`: round `a * 2 ^ 52 / (b * 2 ^ e)` half-to-even and scale by
the unit in the last place. -/
theorem floatRound_frac_eval (a b : ℤ) (hb : 0 < b) (hab : b ≤ a) (e : ℕ)
    (he : log2Fuel 1100 (a / b).toNat = e) :
    floatRound ((a : ℚ) / b) =
      ((2 : ℚ) ^ e / 2 ^ 52) * ((divRoundHalfEven (a * 2 ^ 52) (b * 2 ^ e) : ℤ) : ℚ) := by
  have ha : 0 < a := lt_of_lt_of_le hb hab
  have hbQ : (0 : ℚ) < (b : ℚ) := by exact_mod_cast hb
  have h1le : (1 : ℚ) ≤ (a : ℚ) / b := by
    rw [le_div_iff₀ hbQ, one_mul]
    exact_mod_cast hab
  have hpos : (0 : ℚ) ≤ (a : ℚ) / b := by linarith
  unfold floatRound
  have habs : ratAbs ((a : ℚ) / b) = (a : ℚ) / b := by
    rw [ratAbs_eq_abs]
    exact abs_of_nonneg hpos
  rw [habs, if_neg (not_lt.2 h1le)]
  dsimp only
  rw [ratFloor_div_int a b hb, he]
  have hq : ((a : ℚ) / b) / ((2 : ℚ) ^ e / 2 ^ 52) =
      ((a * 2 ^ 52 : ℤ) : ℚ) / ((b * 2 ^ e : ℤ) : ℚ) := by
    have h1 : ((b : ℚ)) ≠ 0 := ne_of_gt hbQ
    have h2 : ((2 : ℚ) ^ e) ≠ 0 := by positivity
    have h3 : ((2 : ℚ) ^ 52) ≠ 0 := by positivity
    push_cast
    field_simp
    tauto
  rw [hq, roundHalfEvenInt_div _ _ (by positivity : (0 : ℤ) < b * 2 ^ e)]

/-! ## Shape of the strings the timestamp parser accepts -/

theorem takeDigitsAux_spec (T : PyDigits) :
    ∀ (n : ℕ) (cs : List Char) (acc v : ℕ) (r : List Char),
    takeDigitsAux T n cs acc = some (v, r) →
    ∃ ds, cs = ds ++ r ∧ ds.length = n ∧ ds.all T.isDigit := by
  intro n
  induction n with
  | zero =>
    intro cs acc v r h
    simp [takeDigitsAux] at h
    exact ⟨[], by simp [h]⟩
  | succ m ih =>
    intro cs acc v r h
    cases cs with
    | nil => simp [takeDigitsAux] at h
    | cons c cs =>
      by_cases hd : T.isDigit c
      · simp only [takeDigitsAux, if_pos hd] at h
        obtain ⟨ds, hcs, hlen, hdig⟩ := ih cs _ v r h
        exact ⟨c :: ds, by simp [hcs], by simp [hlen], by simp [hd, hdig]⟩
      · simp [takeDigitsAux, hd] at h

theorem takeDigits_spec (T : PyDigits) (n : ℕ) (cs : List Char) (v : ℕ)
    (r : List Char) (h : takeDigits T n cs = some (v, r)) :
    ∃ ds, cs = ds ++ r ∧ ds.length = n ∧ ds.all T.isDigit :=
  takeDigitsAux_spec T n cs 0 v r h

theorem expectChar_spec (c : Char) (cs r : List Char) (h : expectChar c cs = some r) :
    cs = c :: r := by
  cases cs with
  | nil => simp [expectChar] at h
  | cons a as =>
    by_cases ha : a = c
    · simp [expectChar, ha] at h
      simp [ha, h]
    · simp [expectChar, ha] at h

theorem anyChar_spec (cs r : List Char) (h : anyChar cs = some r) :
    ∃ c, cs = c :: r ∧ c ≠ '\n' := by
  cases cs with
  | nil => simp [anyChar] at h
  | cons a as =>
    by_cases ha : a = '\n'
    · simp [anyChar, ha] at h
    · simp [anyChar, ha] at h
      exact ⟨a, by simp [h], ha⟩

/-- A successful regex match decomposes the input into the relaxed shape:
six two-or-four digit groups (digits per the table), any single non-newline
character, nine digits, a `Z`, and arbitrary trailing characters. -/
theorem matchInfluxT_shape (T : PyDigits) (cs : List Char)
    (t : ℕ × ℕ × ℕ × ℕ × ℕ × ℕ × ℕ) (h : matchInfluxT T cs = some t) :
    relaxedInfluxShape T cs := by
  simp only [matchInfluxT, Option.bind_eq_some, Option.some.injEq, Prod.exists,
    bind, Option.bind_eq_some] at h
  obtain ⟨y, r1, h1, r2, h2, mo, r3, h3, r4, h4, d, r5, h5, r6, h6, hh, r7, h7,
    r8, h8, mi, r9, h9, r10, h10, s, r11, h11, r12, h12, ns, r13, h13, r14, h14, ht⟩ := h
  obtain ⟨dy, hcs1, hly, hdy⟩ := takeDigits_spec _ _ _ _ _ h1
  have hr1 := expectChar_spec _ _ _ h2
  obtain ⟨dmo, hcs2, hlmo, hdmo⟩ := takeDigits_spec _ _ _ _ _ h3
  have hr3 := expectChar_spec _ _ _ h4
  obtain ⟨dd, hcs3, hld, hdd⟩ := takeDigits_spec _ _ _ _ _ h5
  have hr5 := expectChar_spec _ _ _ h6
  obtain ⟨dh, hcs4, hlh, hdh⟩ := takeDigits_spec _ _ _ _ _ h7
  have hr7 := expectChar_spec _ _ _ h8
  obtain ⟨dmi, hcs5, hlmi, hdmi⟩ := takeDigits_spec _ _ _ _ _ h9
  have hr9 := expectChar_spec _ _ _ h10
  obtain ⟨ds, hcs6, hls, hds⟩ := takeDigits_spec _ _ _ _ _ h11
  obtain ⟨sep, hr11, hsep⟩ := anyChar_spec _ _ h12
  obtain ⟨df, hcs7, hlf, hdf⟩ := takeDigits_spec _ _ _ _ _ h13
  have hr13 := expectChar_spec _ _ _ h14
  refine ⟨dy, dmo, dd, dh, dmi, ds, df, sep, r14, ?_, hly, hlmo, hld, hlh,
    hlmi, hls, hlf, hsep, ?_⟩
  · rw [hcs1, hr1, hcs2, hr3, hcs3, hr5, hcs4, hr7, hcs5, hr9, hcs6, hr11, hcs7, hr13]
    simp
  · simp only [List.all_append, Bool.and_eq_true]
    exact ⟨⟨⟨⟨⟨⟨hdy, hdmo⟩, hdd⟩, hdh⟩, hdmi⟩, hds⟩, hdf⟩

/-- The spec's exact shape pins the string length to 30 characters. -/
theorem exactInfluxShape_length (cs : List Char) (h : exactInfluxShape cs) :
    cs.length = 30 := by
  obtain ⟨y, mo, d, hh, mi, s, f, hcs, h4, h2a, h2b, h2c, h2d, h2e, h9, _⟩ := h
  subst hcs
  simp [List.length_append, h4, h2a, h2b, h2c, h2d, h2e, h9]

/-! ## Claim C2: agreement of the three timestamp input forms -/

/-- **C2 (amended).** For an instant given by valid civil fields with a
microsecond count that is exactly representable in a double (absolute
microsecond count at most `2 ^ 53`, which covers roughly 1685–2255),
all three input forms of `Point.time` normalize to that same instant: a
UTC datetime, the microsecond-exact integer nanosecond count, and any
string the parser reads as those civil fields. Outside the 53-bit window
the integer branch's float division rounds and can disagree (see the
counterexample). -/
theorem c2_normalize_agreement (y mo d h mi sec usub nsd : ℕ) (s : String)
    (hv : validCivil y mo d h mi sec usub = true)
    (hm : matchInflux s.data = some (y, mo, d, h, mi, sec, nsd))
    (hus : nsd / 1000 = usub)
    (hrange : (civilToMicros y mo d h mi sec usub).natAbs ≤ 2 ^ 53) :
    pointTimeSet (.dt (civilToMicros y mo d h mi sec usub))
        = .ok (some (civilToMicros y mo d h mi sec usub)) ∧
    pointTimeSet (.ns (1000 * civilToMicros y mo d h mi sec usub))
        = .ok (some (civilToMicros y mo d h mi sec usub)) ∧
    pointTimeSet (.iso s) = .ok (some (civilToMicros y mo d h mi sec usub)) := by
  refine ⟨rfl, pointTimeSet_ns_exact _ hrange, ?_⟩
  simp only [matchInflux] at hm
  simp only [pointTimeSet, datetimeFromInfluxTime, datetimeFromInfluxTimeT, hm]
  rw [hus]
  simp [hv, Except.map]

/-- Witness: the spec's own example instant. The string form
`2015-01-29T21:55:43.702900257Z`, the equivalent UTC datetime (microsecond
precision), and the microsecond-exact integer all normalize to microsecond
count 1422568543702900; and the claim's precise integer example
`1422568543702900257` (whose sub-microsecond digits the float division
rounds away) also normalizes to that same instant. -/
theorem c2_normalize_agreement_witness :
    (pointTimeSet (.dt 1422568543702900) = .ok (some 1422568543702900) ∧
     pointTimeSet (.ns (1000 * 1422568543702900)) = .ok (some 1422568543702900) ∧
     pointTimeSet (.iso "2015-01-29T21:55:43.702900257Z")
        = .ok (some 1422568543702900)) ∧
    pointTimeSet (.ns 1422568543702900257) = .ok (some 1422568543702900) := by
  constructor
  · have hc : civilToMicros 2015 1 29 21 55 43 702900 = 1422568543702900 := by decide
    have h := c2_normalize_agreement 2015 1 29 21 55 43 702900 702900257
      "2015-01-29T21:55:43.702900257Z" (by decide) rfl (by decide) (by decide)
    rwa [hc] at h
  · have hfr := floatRound_frac_eval 1422568543702900257 1000 (by norm_num)
      (by norm_num) 50 (by decide)
    have hdiv : divRoundHalfEven (1422568543702900257 * 2 ^ 52) (1000 * 2 ^ 50)
        = 5690274174811601 := by decide
    rw [hdiv] at hfr
    have hval : ((2 : ℚ) ^ 50 / 2 ^ 52) * ((5690274174811601 : ℤ) : ℚ)
        = ((5690274174811601 : ℤ) : ℚ) / ((4 : ℤ) : ℚ) := by
      push_cast
      norm_num
    have hrv : divRoundHalfEven 5690274174811601 4 = 1422568543702900 := by decide
    simp only [pointTimeSet]
    rw [show ((1422568543702900257 : ℤ) : ℚ) / (1000 : ℚ)
        = ((1422568543702900257 : ℤ) : ℚ) / ((1000 : ℤ) : ℚ) by norm_num]
    rw [hfr, hval, roundHalfEvenInt_div _ _ (by norm_num : (0 : ℤ) < 4), hrv]

/-- **C2 (counterexample).** The instant 9999-01-01T00:00:00.000001 UTC is
representable in all three input forms, but the integer-nanosecond form
normalizes to a different instant than the string and datetime forms: the
float division `time/1000` rounds the microsecond count (about `2 ^ 57`,
beyond the 53-bit mantissa) to a multiple of 32. -/
theorem c2_counterexample :
    pointTimeSet (.iso "9999-01-01T00:00:00.000001000Z")
        = .ok (some 253370764800000001) ∧
    pointTimeSet (.dt 253370764800000001) = .ok (some 253370764800000001) ∧
    pointTimeSet (.ns 253370764800000001000) = .ok (some 253370764800000000) ∧
    pointTimeSet (.ns 253370764800000001000) ≠ pointTimeSet (.dt 253370764800000001) := by
  have hns : pointTimeSet (.ns 253370764800000001000) = .ok (some 253370764800000000) := by
    simp only [pointTimeSet]
    rw [show ((253370764800000001000 : ℤ) : ℚ) / (1000 : ℚ)
        = ((253370764800000001000 : ℤ) : ℚ) / ((1000 : ℤ) : ℚ) by norm_num]
    have hfr := floatRound_frac_eval 253370764800000001000 1000 (by norm_num)
      (by norm_num) 57 (by decide)
    have hdiv : divRoundHalfEven (253370764800000001000 * 2 ^ 52) (1000 * 2 ^ 57)
        = 7917836400000000 := by decide
    rw [hfr, hdiv]
    rw [show ((2 : ℚ) ^ 57 / 2 ^ 52) * ((7917836400000000 : ℤ) : ℚ)
        = ((253370764800000000 : ℤ) : ℚ) by push_cast; norm_num]
    rw [roundHalfEvenInt_intCast]
  refine ⟨by decide, rfl, hns, ?_⟩
  rw [hns]
  decide

/-! ## Claim C8: which strings the timestamp parser accepts -/

/-- **C8 (amended).** For every digit table `T` conforming to the
runtime's Unicode `\d` semantics, `datetime_from_influx_time` succeeds
only on strings that BEGIN with the relaxed pattern `YYYY-MM-DD T HH:MM:SS
<any single non-newline character> <9 digits> Z`, with digits in the sense
of `\d` — any Unicode decimal digits per `T` — and the parsed fields
forming a valid calendar date-time; the separator before the fractional
digits is an unescaped regex dot (which without `re.DOTALL` matches any
character except `\n`), and because `re.match` anchors only at the start,
arbitrary trailing characters after the `Z` are accepted. Every string
without such a prefix fails with `ValueError`. -/
theorem c8_parse_shape (T : PyDigits) (s : String) (v : Int)
    (h : datetimeFromInfluxTimeT T s = .ok v) : relaxedInfluxShape T s.data := by
  unfold datetimeFromInfluxTimeT at h
  cases hm : matchInfluxT T s.data with
  | none =>
    rw [hm] at h
    exact absurd h (by simp)
  | some t => exact matchInfluxT_shape T s.data t hm

/-- Witness for C8: at the ASCII fragment of the digit table, the canonical
well-shaped string parses and therefore has the relaxed shape. -/
theorem c8_parse_shape_witness :
    relaxedInfluxShape asciiDigits "2015-01-29T21:55:43.702900257Z".data :=
  c8_parse_shape asciiDigits "2015-01-29T21:55:43.702900257Z" 1422568543702900
    (by decide)

/-- **C8 (counterexample).** A string with a trailing character after the
`Z` — not of the spec's exact shape — is accepted by the parser, because
the pattern is only anchored at the start. -/
theorem c8_counterexample :
    (datetimeFromInfluxTime "2015-01-29T21:55:43.702900257Zx").isOk = true ∧
    ¬ exactInfluxShape "2015-01-29T21:55:43.702900257Zx".data := by
  refine ⟨by decide, fun h => ?_⟩
  have h30 := exactInfluxShape_length _ h
  have h31 : ("2015-01-29T21:55:43.702900257Zx".data).length = 31 := by decide
  omega

/-! ## Claim C7: descriptor merging on subclassing -/

theorem mem_insertSorted (x y : String) (l : List String) :
    y ∈ insertSorted x l ↔ y = x ∨ y ∈ l := by
  induction l with
  | nil => simp [insertSorted]
  | cons a as ih =>
    simp only [insertSorted]
    split
    · simp [List.mem_cons]
    · simp [List.mem_cons, ih]
      tauto

theorem mem_sortStrings (y : String) (l : List String) :
    y ∈ sortStrings l ↔ y ∈ l := by
  induction l with
  | nil => simp [sortStrings]
  | cons a as ih =>
    show y ∈ insertSorted a (sortStrings as) ↔ _
    rw [mem_insertSorted, ih]
    simp

theorem lookup_some_mem {α : Type} (l : List (String × α)) (k : String) (v : α)
    (h : l.lookup k = some v) : k ∈ l.map Prod.fst := by
  induction l with
  | nil => simp [List.lookup] at h
  | cons p ps ih =>
    obtain ⟨a, b⟩ := p
    by_cases hk : k = a
    · subst hk
      simp
    · have hba : (k == a) = false := beq_eq_false_iff_ne.mpr hk
      simp only [List.lookup, hba] at h
      simp [ih h]

theorem lookup_map_self {α : Type} (f : String → α) (ks : List String) (k : String)
    (h : k ∈ ks) : (ks.map fun x => (x, f x)).lookup k = some (f k) := by
  induction ks with
  | nil => simp at h
  | cons a as ih =>
    by_cases hk : k = a
    · subst hk
      simp [List.lookup]
    · have hmem : k ∈ as := by simpa [hk] using h
      have hba : (k == a) = false := beq_eq_false_iff_ne.mpr hk
      show List.lookup k ((a, f a) :: as.map fun x => (x, f x)) = some (f k)
      simp only [List.lookup, hba]
      exact ih hmem

/-- **C7 (amended).** In the merged, re-sorted mapping built by
`_register_tags` / `_register_fields`, the BASE schema's descriptor wins a
name collision (`base_tags.get(key, tags.get(key))` prefers the base); the
subclass's own descriptor is used only for names the base does not
declare. -/
theorem c7_register_merge {α : Type} (base new : List (String × α)) (k : String) :
    (∀ v, base.lookup k = some v →
      (registerDatums base new).lookup k = some (some v)) ∧
    (base.lookup k = none → ∀ v, new.lookup k = some v →
      (registerDatums base new).lookup k = some (some v)) := by
  have hlook : ∀ hmem : k ∈ (sortStrings (base.map Prod.fst ++ new.map Prod.fst)).dedup,
      (registerDatums base new).lookup k
        = some ((base.lookup k).orElse fun _ => new.lookup k) := by
    intro hmem
    exact lookup_map_self _ _ k hmem
  constructor
  · intro v hv
    have hmem : k ∈ (sortStrings (base.map Prod.fst ++ new.map Prod.fst)).dedup := by
      rw [List.mem_dedup, mem_sortStrings, List.mem_append]
      exact Or.inl (lookup_some_mem base k v hv)
    rw [hlook hmem, hv]
    rfl
  · intro hb v hv
    have hmem : k ∈ (sortStrings (base.map Prod.fst ++ new.map Prod.fst)).dedup := by
      rw [List.mem_dedup, mem_sortStrings, List.mem_append]
      exact Or.inr (lookup_some_mem new k v hv)
    rw [hlook hmem, hb, hv]
    rfl

/-- Witness for C7: a concrete base/subclass collision resolved in favour
of the base's descriptor. -/
theorem c7_register_merge_witness :
    (registerDatums [("t", true)] [("t", false)]).lookup "t" = some (some true) :=
  (c7_register_merge [("t", true)] [("t", false)] "t").1 true (by decide)

/-- **C7 (counterexample).** A base schema declaring tag `t` with
`required = false` and a subclass re-declaring `t` with `required = true`:
the merged mapping keeps the base's descriptor, not the subclass's own, so
the claim "the subclass's own descriptor wins" is false on this code. -/
theorem c7_counterexample :
    (registerDatums [("t", (⟨false, none⟩ : TagSpec))] [("t", ⟨true, none⟩)]).lookup "t"
      = some (some ⟨false, none⟩) ∧
    (registerDatums [("t", (⟨false, none⟩ : TagSpec))] [("t", ⟨true, none⟩)]).lookup "t"
      ≠ some (some ⟨true, none⟩) := by
  decide

/-! ## Claim C9: decoder behaviour when nothing matches -/

/-- **C9 (amended).** When no gathered result set's name equals the target
measurement name (in particular when the envelope matches none of the three
accepted shapes, so nothing is gathered), `Measurement.from_json` fails
with `ValueError` — but `Point.from_json` (on a `results` envelope) and
`Series.from_json` return an EMPTY result without raising. -/
theorem c9_no_match_behavior {α : Type} (mname : String) (c : ResponseContent α)
    (hnone : ∀ s ∈ gatherSeries c, s.name ≠ mname) :
    measurementFromJson mname c = .error () ∧
    (∀ rs, c = .results rs → pointFromJson mname c = .ok []) ∧
    seriesFromJson mname c = [] := by
  have hfind : (gatherSeries c).find? (fun s => s.name == mname) = none := by
    rw [List.find?_eq_none]
    intro s hs
    simpa using hnone s hs
  refine ⟨?_, ?_, ?_⟩
  · rw [measurementFromJson, hfind]
  · intro rs hc
    subst hc
    have hfilter : (rs.foldl (fun acc r => acc ++ r.getD []) []).filter
        (fun s => s.name == mname) = [] := by
      rw [List.filter_eq_nil_iff]
      intro s hs
      simpa using hnone s hs
    rw [pointFromJson, hfilter]
    rfl
  · cases c with
    | seriesKey ss =>
      show ss.filter (fun s => s.name == mname) = []
      rw [List.filter_eq_nil_iff]
      intro s hs
      simpa using hnone s hs
    | results rs => rfl
    | nameKey s => rfl
    | other => rfl

/-- Witness for C9: a `results` envelope holding only a series named
`Other` — the Measurement decoder raises, the Point decoder yields
nothing. -/
theorem c9_no_match_behavior_witness :
    measurementFromJson "Measurement"
        ((.results [some [⟨"Other", ["c"], [[1]]⟩]]) : ResponseContent Nat) = .error () ∧
    (∀ rs, ((.results [some [⟨"Other", ["c"], [[1]]⟩]]) : ResponseContent Nat) = .results rs →
      pointFromJson "Measurement"
        ((.results [some [⟨"Other", ["c"], [[1]]⟩]]) : ResponseContent Nat) = .ok []) ∧
    seriesFromJson "Measurement"
        ((.results [some [⟨"Other", ["c"], [[1]]⟩]]) : ResponseContent Nat) = [] :=
  c9_no_match_behavior "Measurement" _ (by decide)

/-- **C9 (counterexample).** `Point.from_json` on a valid `results`
envelope whose only series has a non-matching name returns an empty result
and does NOT fail; likewise `Series.from_json` on a `series` envelope. The
claim's "from_json fails ... rather than returning an empty result" is
false for these two decoders. -/
theorem c9_counterexample :
    pointFromJson "Measurement"
        ((.results [some [⟨"Other", ["c"], [[1]]⟩]]) : ResponseContent Nat)
      = .ok [] ∧
    seriesFromJson "Measurement"
        ((.seriesKey [⟨"Other", ["c"], [[1]]⟩]) : ResponseContent Nat) = [] := by
  decide

/-! ## Claim C1: required-datum enforcement before any output -/

theorem batchCheckTags_error (tags : List TagColumn)
    (h : ∃ t ∈ tags, t.spec.required = true ∧ tagColHasNull t = true) :
    ∃ nm, batchCheckTags tags = .error (.missingTag nm) ∧
      ∃ t ∈ tags, t.name = nm ∧ t.spec.required = true ∧ tagColHasNull t = true := by
  induction tags with
  | nil => simp at h
  | cons t ts ih =>
    by_cases hc : (t.spec.required && tagColHasNull t) = true
    · obtain ⟨hr, hn⟩ := Bool.and_eq_true_iff.mp hc
      exact ⟨t.name, by simp [batchCheckTags, hc], t, List.mem_cons_self t ts, rfl, hr, hn⟩
    · rcases h with ⟨x, hx, hxr, hxn⟩
      rcases List.mem_cons.mp hx with rfl | hxm
      · exact absurd (by simp [hxr, hxn] : (x.spec.required && tagColHasNull x) = true) hc
      · obtain ⟨nm, he, x', hx', rest⟩ := ih ⟨x, hxm, hxr, hxn⟩
        exact ⟨nm, by simpa [batchCheckTags, hc] using he, x',
          List.mem_cons_of_mem _ hx', rest⟩

theorem batchCheckTags_ok (tags : List TagColumn)
    (h : ∀ t ∈ tags, t.spec.required = true → tagColHasNull t = false) :
    batchCheckTags tags = .ok () := by
  induction tags with
  | nil => rfl
  | cons t ts ih =>
    have hc : (t.spec.required && tagColHasNull t) = false := by
      cases hr : t.spec.required with
      | false => simp
      | true => simp [h t (List.mem_cons_self t ts) hr]
    simpa [batchCheckTags, hc] using ih fun x hx => h x (List.mem_cons_of_mem _ hx)

theorem batchCheckFields_error (fields : List FieldColumn)
    (h : ∃ f ∈ fields, f.required = true ∧ fieldColHasNull f = true) :
    ∃ nm, batchCheckFields fields = .error (.missingField nm) ∧
      ∃ f ∈ fields, f.name = nm ∧ f.required = true ∧ fieldColHasNull f = true := by
  induction fields with
  | nil => simp at h
  | cons f fs ih =>
    by_cases hc : (f.required && fieldColHasNull f) = true
    · obtain ⟨hr, hn⟩ := Bool.and_eq_true_iff.mp hc
      exact ⟨f.name, by simp [batchCheckFields, hc], f, List.mem_cons_self f fs, rfl, hr, hn⟩
    · rcases h with ⟨x, hx, hxr, hxn⟩
      rcases List.mem_cons.mp hx with rfl | hxm
      · exact absurd (by simp [hxr, hxn] : (x.required && fieldColHasNull x) = true) hc
      · obtain ⟨nm, he, x', hx', rest⟩ := ih ⟨x, hxm, hxr, hxn⟩
        exact ⟨nm, by simpa [batchCheckFields, hc] using he, x',
          List.mem_cons_of_mem _ hx', rest⟩

theorem batchCheckFields_ok (fields : List FieldColumn)
    (h : ∀ f ∈ fields, f.required = true → fieldColHasNull f = false) :
    batchCheckFields fields = .ok () := by
  induction fields with
  | nil => rfl
  | cons f fs ih =>
    have hc : (f.required && fieldColHasNull f) = false := by
      cases hr : f.required with
      | false => simp
      | true => simp [h f (List.mem_cons_self f fs) hr]
    simpa [batchCheckFields, hc] using ih fun x hx => h x (List.mem_cons_of_mem _ hx)

theorem pointTagFold_error (acc : String) (tags : List PointTag)
    (h : ∃ t ∈ tags, t.spec.required = true ∧ t.value = none) :
    ∃ nm, pointTagFold acc tags = .error (.missingTag nm) ∧
      ∃ t ∈ tags, t.name = nm ∧ t.spec.required = true ∧ t.value = none := by
  induction tags generalizing acc with
  | nil => simp at h
  | cons t ts ih =>
    cases hv : t.value with
    | some v =>
      rcases h with ⟨x, hx, hxr, hxn⟩
      rcases List.mem_cons.mp hx with rfl | hxm
      · rw [hv] at hxn
        exact absurd hxn (by simp)
      · obtain ⟨nm, he, x', hx', rest⟩ := ih _ ⟨x, hxm, hxr, hxn⟩
        refine ⟨nm, ?_, x', List.mem_cons_of_mem _ hx', rest⟩
        simpa [pointTagFold, hv] using he
    | none =>
      by_cases hr : t.spec.required = true
      · exact ⟨t.name, by simp [pointTagFold, hv, hr], t, List.mem_cons_self t ts, rfl, hr, hv⟩
      · rcases h with ⟨x, hx, hxr, hxn⟩
        rcases List.mem_cons.mp hx with rfl | hxm
        · exact absurd hxr hr
        · obtain ⟨nm, he, x', hx', rest⟩ := ih _ ⟨x, hxm, hxr, hxn⟩
          refine ⟨nm, ?_, x', List.mem_cons_of_mem _ hx', rest⟩
          simpa [pointTagFold, hv, hr] using he

theorem pointTagFold_ok (acc : String) (tags : List PointTag)
    (h : ∀ t ∈ tags, t.spec.required = true → t.value ≠ none) :
    ∃ s, pointTagFold acc tags = .ok s := by
  induction tags generalizing acc with
  | nil => exact ⟨acc, rfl⟩
  | cons t ts ih =>
    cases hv : t.value with
    | some v =>
      obtain ⟨s, hs⟩ := ih _ fun x hx => h x (List.mem_cons_of_mem _ hx)
      exact ⟨s, by simpa [pointTagFold, hv] using hs⟩
    | none =>
      have hr : t.spec.required = false := by
        cases hq : t.spec.required with
        | false => rfl
        | true => exact absurd hv (h t (List.mem_cons_self t ts) hq)
      obtain ⟨s, hs⟩ := ih acc fun x hx => h x (List.mem_cons_of_mem _ hx)
      exact ⟨s, by simpa [pointTagFold, hv, hr] using hs⟩

theorem pointFieldFold_error (acc : String) (fields : List PointField)
    (h : ∃ f ∈ fields, f.required = true ∧ f.value = none) :
    ∃ nm, pointFieldFold acc fields = .error (.missingField nm) ∧
      ∃ f ∈ fields, f.name = nm ∧ f.required = true ∧ f.value = none := by
  induction fields generalizing acc with
  | nil => simp at h
  | cons f fs ih =>
    cases hv : f.value with
    | some v =>
      rcases h with ⟨x, hx, hxr, hxn⟩
      rcases List.mem_cons.mp hx with rfl | hxm
      · rw [hv] at hxn
        exact absurd hxn (by simp)
      · obtain ⟨nm, he, x', hx', rest⟩ := ih _ ⟨x, hxm, hxr, hxn⟩
        refine ⟨nm, ?_, x', List.mem_cons_of_mem _ hx', rest⟩
        simpa [pointFieldFold, hv] using he
    | none =>
      by_cases hr : f.required = true
      · exact ⟨f.name, by simp [pointFieldFold, hv, hr], f, List.mem_cons_self f fs, rfl, hr, hv⟩
      · rcases h with ⟨x, hx, hxr, hxn⟩
        rcases List.mem_cons.mp hx with rfl | hxm
        · exact absurd hxr hr
        · obtain ⟨nm, he, x', hx', rest⟩ := ih _ ⟨x, hxm, hxr, hxn⟩
          refine ⟨nm, ?_, x', List.mem_cons_of_mem _ hx', rest⟩
          simpa [pointFieldFold, hv, hr] using he

/-- **C1 (amended).** Batch encoder: when some required tag column contains
a null, `to_line_protocol` fails with `MissingTagError` naming such a tag
(checked batch-wide, before any line is generated); when every required tag
is fully populated and some required field column contains a null, it fails
with `MissingFieldError` naming such a field. (When both a required tag and
a required field are missing, the TAG error wins — the original claim's
unconditional field clause is false, see the counterexample.) The same
holds for the single-record `Point` encoder. In every failing case the
result is an error, so no partial line-protocol text is returned. -/
theorem c1_required_checks
    (mname : String) (tags : List TagColumn) (fields : List FieldColumn)
    (time : Option (List Int)) (n : Nat)
    (ptags : List PointTag) (pfields : List PointField) (ptime : Option Int) :
    ((∃ t ∈ tags, t.spec.required = true ∧ tagColHasNull t = true) →
      ∃ nm, measurementToLineProtocol mname tags fields time n
          = .error (.missingTag nm) ∧
        ∃ t ∈ tags, t.name = nm ∧ t.spec.required = true ∧ tagColHasNull t = true) ∧
    ((∀ t ∈ tags, t.spec.required = true → tagColHasNull t = false) →
      (∃ f ∈ fields, f.required = true ∧ fieldColHasNull f = true) →
      ∃ nm, measurementToLineProtocol mname tags fields time n
          = .error (.missingField nm) ∧
        ∃ f ∈ fields, f.name = nm ∧ f.required = true ∧ fieldColHasNull f = true) ∧
    ((∃ t ∈ ptags, t.spec.required = true ∧ t.value = none) →
      ∃ nm, pointToLineProtocol mname ptags pfields ptime = .error (.missingTag nm) ∧
        ∃ t ∈ ptags, t.name = nm ∧ t.spec.required = true ∧ t.value = none) ∧
    ((∀ t ∈ ptags, t.spec.required = true → t.value ≠ none) →
      (∃ f ∈ pfields, f.required = true ∧ f.value = none) →
      ∃ nm, pointToLineProtocol mname ptags pfields ptime = .error (.missingField nm) ∧
        ∃ f ∈ pfields, f.name = nm ∧ f.required = true ∧ f.value = none) := by
  refine ⟨?_, ?_, ?_, ?_⟩
  · intro h
    obtain ⟨nm, he, w⟩ := batchCheckTags_error tags h
    exact ⟨nm, by simp [measurementToLineProtocol, he, Bind.bind, Except.bind,
      Functor.map, Except.map], w⟩
  · intro hok h
    obtain ⟨nm, he, w⟩ := batchCheckFields_error fields h
    exact ⟨nm, by simp [measurementToLineProtocol, batchCheckTags_ok tags hok, he,
      Bind.bind, Except.bind, Functor.map, Except.map], w⟩
  · intro h
    obtain ⟨nm, he, w⟩ := pointTagFold_error (mname ++ ",") ptags h
    exact ⟨nm, by simp [pointToLineProtocol, pointTagSegment, he, Bind.bind,
      Except.bind, Functor.map, Except.map], w⟩
  · intro hok h
    obtain ⟨s, hs⟩ := pointTagFold_ok (mname ++ ",") ptags hok
    obtain ⟨nm, he, w⟩ := pointFieldFold_error (rstripComma s ++ " ") pfields h
    exact ⟨nm, by simp [pointToLineProtocol, pointTagSegment, hs, he, Bind.bind,
      Except.bind, Functor.map, Except.map], w⟩

/-- Witness for C1: a concrete missing required tag (batch and point) and a
concrete missing required field (batch and point). -/
theorem c1_required_checks_witness :
    (∃ nm, measurementToLineProtocol "M" [⟨"t", ⟨true, none⟩, [none]⟩] [] none 1
        = .error (.missingTag nm) ∧
      ∃ t ∈ [(⟨"t", ⟨true, none⟩, [none]⟩ : TagColumn)], t.name = nm ∧
        t.spec.required = true ∧ tagColHasNull t = true) ∧
    (∃ nm, measurementToLineProtocol "M" [] [⟨"f", true, none, .intCells [none]⟩] none 1
        = .error (.missingField nm) ∧
      ∃ f ∈ [(⟨"f", true, none, .intCells [none]⟩ : FieldColumn)], f.name = nm ∧
        f.required = true ∧ fieldColHasNull f = true) := by
  constructor
  · exact (c1_required_checks "M" [⟨"t", ⟨true, none⟩, [none]⟩] [] none 1 [] [] none).1
      ⟨⟨"t", ⟨true, none⟩, [none]⟩, by simp, rfl, by decide⟩
  · exact (c1_required_checks "M" [] [⟨"f", true, none, .intCells [none]⟩] none 1
      [] [] none).2.1 (by simp)
      ⟨⟨"f", true, none, .intCells [none]⟩, by simp, rfl, by decide⟩

/-- **C1 (counterexample).** A one-row batch missing BOTH a required tag
and a required field raises `MissingTagError`, not `MissingFieldError`:
the claim's second universal ("for every batch in which some required
field is absent ... it fails with MissingFieldError") is false on this
batch. -/
theorem c1_counterexample :
    measurementToLineProtocol "M" [⟨"t", ⟨true, none⟩, [none]⟩]
        [⟨"f", true, none, .intCells [none]⟩] none 1 = .error (.missingTag "t") ∧
    (∀ nm, measurementToLineProtocol "M" [⟨"t", ⟨true, none⟩, [none]⟩]
        [⟨"f", true, none, .intCells [none]⟩] none 1 ≠ .error (.missingField nm)) := by
  refine ⟨by decide, fun nm h => ?_⟩
  rw [(by decide : measurementToLineProtocol "M" [⟨"t", ⟨true, none⟩, [none]⟩]
      [⟨"f", true, none, .intCells [none]⟩] none 1 = .error (.missingTag "t"))] at h
  exact absurd h (by simp)

/-! ## Claim C3: NaN cells in a float column -/

set_option maxRecDepth 40000 in
/-- **C3 (amended).** For the claim's table — 10 rows, `int_field` fully
populated, string tag constant, `float_field` NaN in row 0 and present
elsewhere — batch encoding does NOT omit `float_field` on line 0: a NaN
cell is a present value (`item is not None`) and is rendered as
`float_field=nan`; only `None` cells are omitted. All 10 lines carry the
field. -/
theorem c3_nan_encoded :
    measurementToLineProtocol "M"
        [⟨"tag1", ⟨false, none⟩, List.replicate 10 (some "a")⟩]
        [⟨"float_field", false, none,
            .floatCells (some PyFloat.nan :: List.replicate 9 (some (.val 2)))⟩,
         ⟨"int_field", false, none, .intCells (List.replicate 10 (some 1))⟩]
        none 10
      = .ok (String.intercalate "\n"
          ("M,tag1=a float_field=nan,int_field=1i " ::
            List.replicate 9 "M,tag1=a float_field=2.0,int_field=1i ")) := by
  decide

set_option maxRecDepth 40000 in
/-- **C3 (counterexample).** On the claim's table, output line 0 is
`M,tag1=a float_field=nan,int_field=1i ` — it contains `float_field`,
contradicting the claim that line 0 omits it (the other nine lines follow
after the first newline). -/
theorem c3_counterexample :
    ∃ rest, measurementToLineProtocol "M"
        [⟨"tag1", ⟨false, none⟩, List.replicate 10 (some "a")⟩]
        [⟨"float_field", false, none,
            .floatCells (some PyFloat.nan :: List.replicate 9 (some (.val 2)))⟩,
         ⟨"int_field", false, none, .intCells (List.replicate 10 (some 1))⟩]
        none 10
      = .ok ("M,tag1=a float_field=nan,int_field=1i " ++ "\n" ++ rest) ∧
      "M,tag1=a float_field=nan,int_field=1i " ≠ "M,tag1=a int_field=1i " := by
  refine ⟨String.intercalate "\n"
      (List.replicate 9 "M,tag1=a float_field=2.0,int_field=1i "), by decide, by decide⟩

/-! ## Claim C4: the `db_name` wire-name override -/

/-- **C4 (code evaluated at the failing input).** A tag declared with
`db_name="bar"` under attribute name `db_name_tag`, and a field declared
with `db_name="foo"` under `db_name_field`, are emitted under their
ATTRIBUTE names: the encoders never read the stored `db_name`. The
repository's own tests (`test_line_protocol.py`, `test_simple_case`)
expect the `db_name` as the wire key, so this is a bug in the encoders,
not in the claim. -/
theorem c4_db_name_ignored :
    pointToLineProtocol "TestMeasurement"
        [⟨"db_name_tag", ⟨false, some "bar"⟩, some "x"⟩] [] none
      = .ok "TestMeasurement,db_name_tag=x " ∧
    measurementToLineProtocol "TestMeasurement"
        [⟨"db_name_tag", ⟨false, some "bar"⟩, [some "x"]⟩]
        [⟨"db_name_field", false, some "foo", .intCells [some 1]⟩] none 1
      = .ok "TestMeasurement,db_name_tag=x db_name_field=1i " := by
  constructor
  · decide
  · decide

/-! ## Claim C5: the timestamp token at the end of a line -/

theorem pointTimeNs_zero : pointTimeNs 0 = 0 := by
  unfold pointTimeNs
  rw [show ((0 : ℤ) : ℚ) / 1000000 = 0 by norm_num]
  have hfz : floatRound 0 = 0 := by
    have : ratAbs 0 = 0 := by simp [ratAbs]
    simp [floatRound, this]
  rw [hfz, zero_mul, hfz]
  simp [pyTrunc, ratFloor]

/-- **C5 (amended).** Single-record (`Point`) encoding: with a timestamp
the output is the timestamp-less output followed by one space and the
nanosecond integer; without one, nothing further follows the field
segment. Batch (`Measurement`/`Series`) encoding: with a timestamp column
each row's line is the timestamp-less line followed by the nanosecond
integer, but WITHOUT one each line still ends in one trailing space,
because the row is `" ".join`ed from three components with an empty
timestamp component — the claim's "no trailing space" is false for
batches. -/
theorem c5_timestamp_rendering (mname : String) (tags : List PointTag)
    (fields : List PointField) (btags : List TagColumn) (bfields : List FieldColumn)
    (ts : List Int) (i n : Nat) :
    (∀ t s, pointToLineProtocol mname tags fields (some t) = .ok s →
      ∃ core, pointToLineProtocol mname tags fields none = .ok core ∧
        s = core ++ " " ++ toString (pointTimeNs t)) ∧
    (batchRowLine mname btags bfields (some ts) i
      = batchRowLine mname btags bfields none i ++ toString (ts.getD i 0)) ∧
    (∃ pre, batchRowLine mname btags bfields none i = pre ++ " ") ∧
    (∀ out, measurementToLineProtocol mname btags bfields (some ts) n = .ok out →
      out = String.intercalate "\n"
        ((List.range n).map (batchRowLine mname btags bfields (some ts)))) := by
  refine ⟨?_, ?_, ?_, ?_⟩
  · intro t s hs
    cases h1 : pointTagSegment mname tags with
    | error e =>
      rw [pointToLineProtocol, h1] at hs
      exact absurd hs (by simp [Bind.bind, Except.bind])
    | ok s1 =>
      cases h2 : pointFieldFold (s1 ++ " ") fields with
      | error e =>
        rw [pointToLineProtocol, h1] at hs
        simp only [Bind.bind, Except.bind] at hs
        rw [h2] at hs
        exact absurd hs (by simp [Bind.bind, Except.bind])
      | ok s2 =>
        refine ⟨rstripComma s2, ?_, ?_⟩
        · rw [pointToLineProtocol, h1]
          simp only [Bind.bind, Except.bind]
          rw [h2]
          simp [pure, Except.pure, String.append_empty]
        · rw [pointToLineProtocol, h1] at hs
          simp only [Bind.bind, Except.bind] at hs
          rw [h2] at hs
          simp only [pure, Except.pure, Except.ok.injEq, ← String.append_assoc] at hs
          exact hs.symm
  · simp only [batchRowLine]
    rw [String.append_empty]
  · refine ⟨String.intercalate ","
        (mname :: btags.filterMap fun t =>
          (t.cells.getD i none).map fun v => t.name ++ "=" ++ tagFormat v) ++ " " ++
      String.intercalate ","
        (bfields.filterMap fun f =>
          (fieldCellFormat f i).map fun s => f.name ++ "=" ++ s), ?_⟩
    simp [batchRowLine]
  · intro out hout
    cases h1 : batchCheckTags btags with
    | error e =>
      rw [measurementToLineProtocol, h1] at hout
      exact absurd hout (by simp [Bind.bind, Except.bind])
    | ok u =>
      cases h2 : batchCheckFields bfields with
      | error e =>
        rw [measurementToLineProtocol, h1] at hout
        simp only [Bind.bind, Except.bind] at hout
        rw [h2] at hout
        exact absurd hout (by simp [Bind.bind, Except.bind, Functor.map, Except.map])
      | ok u2 =>
        rw [measurementToLineProtocol, h1] at hout
        simp only [Bind.bind, Except.bind] at hout
        rw [h2] at hout
        simp only [Functor.map, Except.map, pure, Except.pure, Except.ok.injEq] at hout
        exact hout.symm

/-- Witness for C5: a concrete point with timestamp 0 renders the
timestamp-less core plus one space plus `0`. -/
theorem c5_timestamp_rendering_witness :
    ∃ core, pointToLineProtocol "M" [⟨"t", ⟨false, none⟩, some "v"⟩]
        [⟨"f", false, none, some (.intV 1)⟩] none = .ok core ∧
      "M,t=v f=1i 0" = core ++ " " ++ toString (pointTimeNs 0) := by
  have h := (c5_timestamp_rendering "M" [⟨"t", ⟨false, none⟩, some "v"⟩]
      [⟨"f", false, none, some (.intV 1)⟩] [] [] [] 0 0).1 0 "M,t=v f=1i 0"
  apply h
  have hz : pointTimeNs 0 = 0 := pointTimeNs_zero
  show pointToLineProtocol "M" [⟨"t", ⟨false, none⟩, some "v"⟩]
      [⟨"f", false, none, some (.intV 1)⟩] (some 0) = .ok "M,t=v f=1i 0"
  rw [pointToLineProtocol]
  simp only [Bind.bind, Except.bind]
  rw [show pointTagSegment "M" [⟨"t", ⟨false, none⟩, some "v"⟩] = .ok "M,t=v" by decide]
  dsimp only
  rw [show pointFieldFold ("M,t=v" ++ " ") [⟨"f", false, none, some (.intV 1)⟩]
      = .ok "M,t=v f=1i," by decide]
  dsimp only
  rw [hz]
  decide

/-- **C5 (counterexample).** A one-row batch WITHOUT a timestamp: the
emitted line is `M,t=v f=1i ` — it ends in a trailing space after the
field segment, contradicting the claim that nothing further is emitted. -/
theorem c5_counterexample :
    measurementToLineProtocol "M" [⟨"t", ⟨false, none⟩, [some "v"]⟩]
        [⟨"f", false, none, .intCells [some 1]⟩] none 1 = .ok "M,t=v f=1i " ∧
    measurementToLineProtocol "M" [⟨"t", ⟨false, none⟩, [some "v"]⟩]
        [⟨"f", false, none, .intCells [some 1]⟩] none 1 ≠ .ok "M,t=v f=1i" := by
  constructor
  · decide
  · decide

/-! ## Claim C10: `rstrip(",")` truncates a trailing escaped comma -/

theorem unescapeTag_escapeTag (cs : List Char) : unescapeTag (escapeTag cs) = cs := by
  rw [escapeTag, unescapeTag,
    unescapeChar_escapeChar '=' (by decide),
    unescapeChar_escapeChar ',' (by decide),
    unescapeChar_escapeChar ' ' (by decide)]

theorem escapeTag_append_comma (w : List Char) :
    escapeTag (w ++ [',']) = escapeTag w ++ ['\\', ','] := by
  unfold escapeTag
  rw [escapeChar_append ' ' w [','], show escapeChar ' ' [','] = [','] from rfl,
    escapeChar_append ',' _ [','], show escapeChar ',' [','] = ['\\', ','] from rfl,
    escapeChar_append '=' _ ['\\', ','],
    show escapeChar '=' ['\\', ','] = ['\\', ','] from rfl]

theorem escapeTag_append_backslash (w : List Char) :
    escapeTag (w ++ ['\\']) = escapeTag w ++ ['\\'] := by
  unfold escapeTag
  rw [escapeChar_append ' ' w ['\\'], show escapeChar ' ' ['\\'] = ['\\'] from rfl,
    escapeChar_append ',' _ ['\\'], show escapeChar ',' ['\\'] = ['\\'] from rfl,
    escapeChar_append '=' _ ['\\'], show escapeChar '=' ['\\'] = ['\\'] from rfl]

theorem pointTagFold_last (acc : String) (pre : List PointTag)
    (hpre : ∀ t ∈ pre, t.value.isSome = true) (tg : PointTag) (v : String)
    (hv : tg.value = some v) :
    ∃ P : String, pointTagFold acc (pre ++ [tg])
      = .ok (P ++ tg.name ++ "=" ++ tagFormat v ++ ",") := by
  induction pre generalizing acc with
  | nil =>
    refine ⟨acc, ?_⟩
    simp [pointTagFold, hv]
  | cons t ts ih =>
    obtain ⟨u, hu⟩ := Option.isSome_iff_exists.mp (hpre t (List.mem_cons_self t ts))
    simp only [List.cons_append, pointTagFold, hu]
    exact ih _ fun x hx => hpre x (List.mem_cons_of_mem _ hx)

theorem rstrip_nonComma_last (xs : List Char) (c : Char) (hc : ¬(c = ',')) :
    ((xs ++ [c]).reverse.dropWhile (· = ',')).reverse = xs ++ [c] := by
  have h1 : (xs ++ [c]).reverse = c :: xs.reverse := by simp
  rw [h1, List.dropWhile_cons_of_neg (by simpa using hc)]
  simp

theorem rstrip_comma_last (xs : List Char) :
    ((xs ++ [',']).reverse.dropWhile (· = ',')).reverse
      = (xs.reverse.dropWhile (· = ',')).reverse := by
  have h1 : (xs ++ [',']).reverse = ',' :: xs.reverse := by simp
  rw [h1, List.dropWhile_cons_of_pos (by simp)]

/-- **C10.** For a `Point` whose (alphabetically) last present tag is
`⟨n, some v⟩` with `v` ending in a comma (`v = w ++ ","`, any earlier tags
present), the tag segment of `to_line_protocol` emits the tag with its
trailing escaped comma truncated: `rstrip(",")` removes the separator comma
AND the comma of the final `\,` escape, leaving the value
`escapeTag w ++ "\"` with a bare trailing backslash — which unescapes to
`w ++ "\"`, not to the original `v`. -/
theorem c10_trailing_comma_tag (mname : String) (pre : List PointTag)
    (hpre : ∀ t ∈ pre, t.value.isSome = true) (n : String) (spec : TagSpec)
    (w : List Char) :
    (∃ P : String, pointTagSegment mname (pre ++ [⟨n, spec, some ⟨w ++ [',']⟩⟩])
        = .ok (P ++ n ++ "=" ++ (⟨escapeTag w ++ ['\\']⟩ : String))) ∧
    (escapeTag (w ++ [','])).dropLast = escapeTag w ++ ['\\'] ∧
    tagUnescape (⟨escapeTag w ++ ['\\']⟩ : String) = (⟨w ++ ['\\']⟩ : String) ∧
    (⟨w ++ ['\\']⟩ : String) ≠ (⟨w ++ [',']⟩ : String) := by
  refine ⟨?_, ?_, ?_, ?_⟩
  · obtain ⟨P, hP⟩ := pointTagFold_last (mname ++ ",") pre hpre
      ⟨n, spec, some ⟨w ++ [',']⟩⟩ ⟨w ++ [',']⟩ rfl
    refine ⟨P, ?_⟩
    rw [pointTagSegment, hP]
    simp only [Except.map]
    congr 1
    apply String.ext
    show ((P ++ n ++ "=" ++ tagFormat ⟨w ++ [',']⟩ ++ ",").data.reverse.dropWhile
        (· = ',')).reverse = _
    have hdata : (P ++ n ++ "=" ++ tagFormat ⟨w ++ [',']⟩ ++ ",").data
        = (((P.data ++ n.data ++ ['='] ++ escapeTag w) ++ ['\\']) ++ [',']) ++ [','] := by
      simp only [String.data_append]
      rw [show (tagFormat ⟨w ++ [',']⟩).data = escapeTag (w ++ [',']) from rfl,
        escapeTag_append_comma]
      simp
    rw [hdata, rstrip_comma_last, rstrip_comma_last,
      rstrip_nonComma_last _ '\\' (by decide)]
    simp [String.data_append]
  · rw [escapeTag_append_comma,
      show escapeTag w ++ ['\\', ','] = (escapeTag w ++ ['\\']) ++ [','] by simp]
    exact List.dropLast_concat
  · show (⟨unescapeTag (escapeTag w ++ ['\\'])⟩ : String) = _
    rw [← escapeTag_append_backslash, unescapeTag_escapeTag]
  · intro h
    have hd : w ++ ['\\'] = w ++ [','] := congrArg String.data h
    have := List.append_cancel_left hd
    simp at this

/-- Witness for C10: the single tag `t = "a,"` — the emitted tag value is
`a\` (bare trailing backslash), which unescapes to `a\`, not `a,`. -/
theorem c10_trailing_comma_tag_witness :
    (∃ P : String, pointTagSegment "M" ([] ++ [⟨"t", ⟨false, none⟩, some ⟨['a'] ++ [',']⟩⟩])
        = .ok (P ++ "t" ++ "=" ++ (⟨escapeTag ['a'] ++ ['\\']⟩ : String))) ∧
    (escapeTag (['a'] ++ [','])).dropLast = escapeTag ['a'] ++ ['\\'] ∧
    tagUnescape (⟨escapeTag ['a'] ++ ['\\']⟩ : String) = (⟨['a'] ++ ['\\']⟩ : String) ∧
    (⟨['a'] ++ ['\\']⟩ : String) ≠ (⟨['a'] ++ [',']⟩ : String) :=
  c10_trailing_comma_tag "M" [] (by simp) "t" ⟨false, none⟩ ['a']

end Canal
